import Mathlib

/-!
Verification development for the `actions-stream.ts` source of the store
package.  The file embeds:

* `OrderedSubject<T>` — the reentrancy-safe ordered broadcast subject
  (`_itemQueue` / `_busyPushingNext` and its overridden `next`), running on
  top of the RxJS 6 `Subject` delivery semantics (snapshot of observers per
  emission, per-subscriber stopped checks, `SafeSubscriber` isolation of a
  throwing `next` handler: the thrower is unsubscribed, the error is
  reported out-of-band, delivery continues);
* `InternalActions.ngOnDestroy`, i.e. `Subject.complete`;
* the `Actions` facade: the `leaveNgxs` transform (modelled from the spec,
  its source is outside the provided tree), the `share()` reference-counted
  multicast, and the per-observer forwarding subscriber built in the
  `Actions` constructor.

Reentrant calls made from inside a subscriber callback are modelled with a
defunctionalized task machine: each `Job` is one pending piece of work of
the original call stack, and `run` consumes fuel, so every execution is a
terminating Lean function.  Ghost fields `arrived` (the order in which
`OrderedSubject.next` was invoked) and `delivered` (the order in which the
underlying `Subject` broadcast values) record the observable history.
-/

namespace ActionsStream

/-- Commands a subscriber's `next` callback may perform while it runs:
synchronously re-enter the producer (`emit`, i.e. a reentrant call to
`OrderedSubject.next`), dispose a subscription (`unsub`), or raise an
exception (`throwE`, after which the rest of the callback body does not
run; RxJS 6 `SafeSubscriber` then unsubscribes the thrower and continues
the delivery pass). -/
inductive Cmd (T : Type) where
  | emit (v : T)
  | unsub (i : Nat)
  | throwE
  deriving DecidableEq, Repr

/-- One registered subscriber of the subject: its identity, its
`isStopped` flag (set by unsubscription or completion), the values its
`next` handler has received in order, how many times its `complete`
handler has run, and its reaction — the commands its `next` handler
performs upon receiving a value. -/
structure Subscriber (T : Type) where
  id : Nat
  stopped : Bool
  received : List T
  completedCount : Nat
  react : T → List (Cmd T)

/-- The state of one `OrderedSubject` instance.  `itemQueue` is the
`_itemQueue` array with index 0 at the head of the Lean list (so
`unshift` is `cons` and `pop` takes the last element);
`busyPushingNext` is `_busyPushingNext`; `subjStopped` is the inherited
`Subject.isStopped`; `subs` are the registered observers.  `arrived` and
`delivered` are ghost logs of, respectively, every call to
`OrderedSubject.next` and every broadcast the base `Subject` performed. -/
structure OState (T : Type) where
  itemQueue : List T
  busyPushingNext : Bool
  subjStopped : Bool
  subs : List (Subscriber T)
  arrived : List T
  delivered : List T

variable {T : Type}

/-- Look up a subscriber by id (first match, as in an observers array of
distinct subscriber objects). -/
def findSub (sid : Nat) : List (Subscriber T) → Option (Subscriber T)
  | [] => none
  | s :: rest => if s.id = sid then some s else findSub sid rest

/-- Mark the subscriber(s) with the given id as stopped
(`Subscription.unsubscribe`). -/
def stopSub (sid : Nat) (st : OState T) : OState T :=
  { st with subs := st.subs.map fun s => if s.id = sid then { s with stopped := true } else s }

/-- Record that the subscriber with the given id received a value
(its `next` handler was entered). -/
def recordReceive (sid : Nat) (v : T) (st : OState T) : OState T :=
  { st with subs := st.subs.map fun s => if s.id = sid then { s with received := s.received ++ [v] } else s }

/-- The busy branch of `OrderedSubject.next`:
`this._itemQueue.unshift(value)`. -/
def enqueue (v : T) (st : OState T) : OState T :=
  { st with itemQueue := v :: st.itemQueue }

/-- Ghost: log that `OrderedSubject.next` was invoked with this value. -/
def logArrive (v : T) (st : OState T) : OState T :=
  { st with arrived := st.arrived ++ [v] }

/-- The guard assignment `this._busyPushingNext = true`. -/
def setBusy (st : OState T) : OState T :=
  { st with busyPushingNext := true }

/-- The final assignment `this._busyPushingNext = false`. -/
def setIdle (st : OState T) : OState T :=
  { st with busyPushingNext := false }

/-- Ghost: log that the base `Subject` broadcast this value. -/
def logDeliver (v : T) (st : OState T) : OState T :=
  { st with delivered := st.delivered ++ [v] }

/-- The drain step `this._itemQueue.pop()`: the oldest pending value sits
at the end of the array. -/
def popQueue (st : OState T) : OState T :=
  { st with itemQueue := st.itemQueue.dropLast }

/-- One pending piece of work of the original synchronous call stack:
`callNext v` is a call to `OrderedSubject.next(v)`; `superNext v` is
`super.next(v)` (the base `Subject` broadcast); `deliverTo v sid` is
`copy[i].next(v)` for the snapshot entry `sid`; `runCmds sid cs` is the
remainder of subscriber `sid`'s callback body; `drainLoop` is the
`while (this._itemQueue.length > 0)` loop head; `clearBusy` is
`this._busyPushingNext = false`. -/
inductive Job (T : Type) where
  | callNext (v : T)
  | superNext (v : T)
  | deliverTo (v : T) (sid : Nat)
  | runCmds (sid : Nat) (cs : List (Cmd T))
  | drainLoop
  | clearBusy

/-- Process one job: returns the jobs to run next (they replace the job
at the top of the stack) and the new state.  This is a direct
transcription of `OrderedSubject.next` plus the RxJS 6 `Subject.next`
(snapshot the observers, skip a stopped subscriber at its delivery step,
skip everything when the subject is stopped) and `SafeSubscriber`
handling of a throwing callback. -/
def stepJob : Job T → OState T → List (Job T) × OState T
  | Job.callNext v, st =>
    let st1 := logArrive v st
    if st1.busyPushingNext then
      ([], enqueue v st1)
    else
      ([Job.superNext v, Job.drainLoop, Job.clearBusy], setBusy st1)
  | Job.superNext v, st =>
    if st.subjStopped then
      ([], st)
    else
      (st.subs.map fun s => Job.deliverTo v s.id, logDeliver v st)
  | Job.deliverTo v sid, st =>
    match findSub sid st.subs with
    | none => ([], st)
    | some s =>
      if s.stopped then ([], st)
      else ([Job.runCmds sid (s.react v)], recordReceive sid v st)
  | Job.runCmds _ [], st => ([], st)
  | Job.runCmds sid (Cmd.emit w :: cs), st => ([Job.callNext w, Job.runCmds sid cs], st)
  | Job.runCmds sid (Cmd.unsub i :: cs), st => ([Job.runCmds sid cs], stopSub i st)
  | Job.runCmds sid (Cmd.throwE :: _), st => ([], stopSub sid st)
  | Job.drainLoop, st =>
    match st.itemQueue.getLast? with
    | none => ([], st)
    | some v => ([Job.superNext v, Job.drainLoop], popQueue st)
  | Job.clearBusy, st => ([], setIdle st)

/-- Run the job stack to completion, spending one unit of fuel per job
step; `none` means the fuel ran out before the stack emptied. -/
def run : Nat → List (Job T) → OState T → Option (OState T)
  | _, [], st => some st
  | 0, _ :: _, _ => none
  | Nat.succ fuel, j :: js, st =>
    let p := stepJob j st
    run fuel (p.1 ++ js) p.2

/-- A call to `OrderedSubject.next(v)` with the given fuel budget. -/
def next (fuel : Nat) (v : T) (st : OState T) : Option (OState T) :=
  run fuel [Job.callNext v] st

/-- A sequence of top-level submissions, each a full call to
`OrderedSubject.next`. -/
def submitAll (fuel : Nat) (vs : List T) (st : OState T) : Option (OState T) :=
  match vs with
  | [] => some st
  | v :: rest => match next fuel v st with
    | none => none
    | some st1 => submitAll fuel rest st1

/-- The values a callback body emits (re-submits) before it either ends
or throws: commands after a `throwE` never run. -/
def emitsOf : List (Cmd T) → List T
  | [] => []
  | Cmd.emit w :: cs => w :: emitsOf cs
  | Cmd.unsub _ :: cs => emitsOf cs
  | Cmd.throwE :: _ => []

/-- How one subscriber evolves across a stretch of execution in which the
subject broadcast the values `d` (in order): identity, reaction and
completion count are untouched; a subscriber that is live at the end was
live throughout and received exactly `d`; a subscriber that was already
stopped receives nothing. -/
def SubStep (d : List T) (s s' : Subscriber T) : Prop :=
  s'.id = s.id ∧ s'.react = s.react ∧ s'.completedCount = s.completedCount ∧
    (s'.stopped = false → s.stopped = false ∧ s'.received = s.received ++ d) ∧
    (s.stopped = true → s'.stopped = true ∧ s'.received = s.received)

/-- A freshly registered subscriber with the given identity and reaction:
live, nothing received, `complete` handler never run. -/
def mkSubscriber (i : Nat) (r : T → List (Cmd T)) : Subscriber T :=
  { id := i, stopped := false, received := [], completedCount := 0, react := r }

/-- `Subject.subscribe`: the new subscriber is appended to the observers
array, so it only takes part in snapshots of later broadcasts. -/
def subscribeSub (s : Subscriber T) (st : OState T) : OState T :=
  { st with subs := st.subs ++ [s] }

/-- Effect of `Subject.complete` on one registered subscriber: a
subscriber that is not yet stopped runs its `complete` handler exactly
once and becomes stopped; an already stopped subscriber is skipped. -/
def subComplete (s : Subscriber T) : Subscriber T :=
  if s.stopped then s else { s with stopped := true, completedCount := s.completedCount + 1 }

/-- RxJS 6 `Subject.complete`, inherited unchanged by `OrderedSubject`
and `InternalActions`: mark the subject stopped and notify every
observer that is still live. -/
def complete (st : OState T) : OState T :=
  { st with subjStopped := true, subs := st.subs.map subComplete }

/-- The `InternalActions.ngOnDestroy` teardown hook: `this.complete()`. -/
def ngOnDestroy (st : OState T) : OState T :=
  complete st

end ActionsStream

namespace ActionsStream

/-! ### The `Actions` facade: `share()` and the forwarding observer -/

/-- State of the `share()` multicast applied to the transformed internal
actions stream: the count of currently attached downstream subscribers,
whether the one upstream subscription is currently connected, and a
ghost counter of how many times an upstream subscription has ever been
established. -/
structure ShareState where
  refCount : Nat
  connected : Bool
  establishments : Nat
  deriving DecidableEq, Repr

/-- A downstream subscriber attaches to the shared stream (RxJS 6
`refCount`): the count rises, and if this is the first subscriber the
single upstream subscription is established. -/
def shareAttach (s : ShareState) : ShareState :=
  let s1 : ShareState := { s with refCount := s.refCount + 1 }
  if s1.refCount = 1 then
    { s1 with connected := true, establishments := s1.establishments + 1 }
  else s1

/-- A downstream subscriber detaches from the shared stream: the count
drops, and when the last subscriber leaves the upstream subscription is
released. -/
def shareDetach (s : ShareState) : ShareState :=
  let s1 : ShareState := { s with refCount := s.refCount - 1 }
  if s1.refCount = 0 then { s1 with connected := false } else s1

/-- The fresh share state of a newly constructed `Actions` instance:
nobody attached, no upstream subscription ever made. -/
def shareInit : ShareState :=
  { refCount := 0, connected := false, establishments := 0 }

/-- A notification event as seen on an observable boundary. -/
inductive Evt (T E : Type) where
  | next (v : T)
  | error (e : E)
  | complete
  deriving DecidableEq, Repr

/-- Modelled from the spec: the `leaveNgxs` execution-context transform
(its source file is outside the provided tree).  The spec requires it to
perform an opaque context hop that "preserves item identity, order, and
count — no filtering, buffering, or duplication", so on the level of
event sequences it is the identity. -/
def leaveNgxs {T E : Type} (evts : List (Evt T E)) : List (Evt T E) :=
  evts

/-- The event sequence one attached observer receives from the shared,
transformed stream `sharedInternalActions$`: `share()` multicasts each
upstream event once, in order, to each attached observer. -/
def sharedInternalActions {T E : Type} (upstream : List (Evt T E)) : List (Evt T E) :=
  leaveNgxs upstream

/-- The forwarding subscriber the `Actions` constructor builds for each
external observer: `next: ctx => observer.next(ctx)`,
`error: error => observer.error(error)`,
`complete: () => observer.complete()`. -/
def actionsForward {T E : Type} : Evt T E → Evt T E
  | Evt.next v => Evt.next v
  | Evt.error e => Evt.error e
  | Evt.complete => Evt.complete

/-- What an external observer subscribed to `Actions` observes, given the
event sequence emitted by the internal channel. -/
def actionsObserved {T E : Type} (upstream : List (Evt T E)) : List (Evt T E) :=
  (sharedInternalActions upstream).map actionsForward

/-- One external subscription to `Actions`: the child subscription into
the shared stream (added to the outer observer by `observer.add`, so it
closes when the outer subscription is disposed), the events forwarded to
the outer observer so far, and the share state it participates in. -/
structure ActionsConn (T E : Type) where
  childClosed : Bool
  observerReceived : List (Evt T E)
  share : ShareState

/-- Disposing the subscription handle returned by `Actions`: via
`observer.add(childSubscription)` the child subscription is
unsubscribed, which releases this observer's share of the upstream
reference count.  Disposal is idempotent. -/
def actionsDispose {T E : Type} (c : ActionsConn T E) : ActionsConn T E :=
  if c.childClosed then c
  else { c with childClosed := true, share := shareDetach c.share }

/-- Delivery of one shared-stream event through the forwarding
subscriber: a closed child subscription forwards nothing. -/
def actionsDeliver {T E : Type} (e : Evt T E) (c : ActionsConn T E) : ActionsConn T E :=
  if c.childClosed then c
  else { c with observerReceived := c.observerReceived ++ [actionsForward e] }

/-! ### Concrete test channels (used to evaluate the theorems on real runs) -/

/-- A reaction that re-submits `payload` upon receiving `trigger`. -/
def reactEmitOn (trigger payload : Nat) : Nat → List (Cmd Nat) :=
  fun v => if v = trigger then [Cmd.emit payload] else []

/-- A passive order-recording reaction. -/
def reactNone : Nat → List (Cmd Nat) :=
  fun _ => []

/-- A reaction that re-submits `payload` and then throws, upon receiving
`trigger`. -/
def reactEmitThrow (trigger payload : Nat) : Nat → List (Cmd Nat) :=
  fun v => if v = trigger then [Cmd.emit payload, Cmd.throwE] else []

/-- A fresh channel with no subscribers and empty history. -/
def emptyChannel : OState Nat :=
  { itemQueue := [], busyPushingNext := false, subjStopped := false, subs := [],
    arrived := [], delivered := [] }

/-- Channel with a reentrant emitter (submits `2` upon receiving `1`) and
a passive recorder. -/
def c1Init : OState Nat :=
  { emptyChannel with subs := [mkSubscriber 1 (reactEmitOn 1 2), mkSubscriber 2 reactNone] }

/-- The state after submitting `1` to `c1Init`. -/
def c1Final : OState Nat :=
  (submitAll 30 [1] c1Init).getD c1Init

/-- The recorder subscriber as it stands after the `c1Init` run. -/
def c1Rec : Subscriber Nat :=
  (findSub 2 c1Final.subs).getD (mkSubscriber 2 reactNone)

/-- Channel with a subscriber that queues `2` and then throws upon
receiving `1`, next to a passive recorder. -/
def c2Init : OState Nat :=
  { emptyChannel with subs := [mkSubscriber 1 (reactEmitThrow 1 2), mkSubscriber 2 reactNone] }

/-- The state after submitting `1` to `c2Init`. -/
def c2Final : OState Nat :=
  (next 30 1 c2Init).getD c2Init

/-- The recorder subscriber as it stands after the `c2Init` run. -/
def c2Rec : Subscriber Nat :=
  (findSub 2 c2Final.subs).getD (mkSubscriber 2 reactNone)

/-- Channel with one already-deregistered subscriber (it received `1`
before disposing) and one live recorder. -/
def c6Init : OState Nat :=
  { emptyChannel with subs :=
      [{ mkSubscriber 1 reactNone with stopped := true, received := [1] },
        mkSubscriber 2 reactNone] }

/-- The state after submitting `2` to `c6Init`. -/
def c6Final : OState Nat :=
  (run 30 [Job.callNext 2] c6Init).getD c6Init

/-- Channel with a single passive subscriber, for the late-subscription
scenario. -/
def c7Init : OState Nat :=
  { emptyChannel with subs := [mkSubscriber 1 reactNone] }

/-- The state after the first submission (`1`) to `c7Init`, before the
late subscriber attaches. -/
def c7Mid : OState Nat :=
  (next 30 1 c7Init).getD c7Init

/-- The state after the late subscriber (id `5`) attached and `2` was
submitted. -/
def c7Final : OState Nat :=
  (next 30 2 (subscribeSub (mkSubscriber 5 reactNone) c7Mid)).getD c7Mid

/-- The late subscriber as it stands at the end of the `c7Init` run. -/
def c7New : Subscriber Nat :=
  (findSub 5 c7Final.subs).getD (mkSubscriber 5 reactNone)

/-- A connection to `Actions` with a live child subscription sharing the
one connected upstream. -/
def c10Conn : ActionsConn Nat Nat :=
  { childClosed := false, observerReceived := [],
    share := { refCount := 1, connected := true, establishments := 1 } }

end ActionsStream

namespace ActionsStream

/-! ### Infrastructure lemmas about `run`, `findSub` and `List.Forall₂` -/

variable {T : Type}

lemma run_nil (f : Nat) (st : OState T) : run f [] st = some st := by
  cases f <;> rfl

lemma run_zero_cons (j : Job T) (js : List (Job T)) (st : OState T) :
    run 0 (j :: js) st = none := rfl

lemma run_succ_cons (f : Nat) (j : Job T) (js : List (Job T)) (st : OState T) :
    run (f + 1) (j :: js) st = run f ((stepJob j st).1 ++ js) (stepJob j st).2 := rfl

lemma run_mono {f g : Nat} {js : List (Job T)} {st st' : OState T} (hfg : f ≤ g)
    (h : run f js st = some st') : run g js st = some st' := by
  induction f generalizing js st g with
  | zero =>
    cases js with
    | nil => simpa [run_nil] using h
    | cons j js => simp [run_zero_cons] at h
  | succ f ih =>
    cases js with
    | nil => simpa [run_nil] using h
    | cons j js =>
      cases g with
      | zero => omega
      | succ g =>
        rw [run_succ_cons] at h ⊢
        exact ih (Nat.succ_le_succ_iff.mp hfg) h

lemma run_split {f : Nat} {js1 js2 : List (Job T)} {st st' : OState T}
    (h : run f (js1 ++ js2) st = some st') :
    ∃ st1, run f js1 st = some st1 ∧ run f js2 st1 = some st' := by
  induction f generalizing js1 st with
  | zero =>
    cases js1 with
    | nil => exact ⟨st, run_nil 0 st, h⟩
    | cons j js1 => simp [run_zero_cons] at h
  | succ f ih =>
    cases js1 with
    | nil => exact ⟨st, run_nil _ st, h⟩
    | cons j js1 =>
      rw [List.cons_append, run_succ_cons, ← List.append_assoc] at h
      obtain ⟨st1, h1, h2⟩ := ih h
      exact ⟨st1, by rw [run_succ_cons]; exact h1, run_mono (Nat.le_succ f) h2⟩

lemma run_append {f g : Nat} {js1 js2 : List (Job T)} {st st1 st' : OState T}
    (h1 : run f js1 st = some st1) (h2 : run g js2 st1 = some st') :
    run (f + g) (js1 ++ js2) st = some st' := by
  induction f generalizing js1 st with
  | zero =>
    cases js1 with
    | nil =>
      rw [run_nil] at h1
      cases h1
      simpa using run_mono (Nat.le_add_left g 0) h2
    | cons j js1 => simp [run_zero_cons] at h1
  | succ f ih =>
    cases js1 with
    | nil =>
      rw [run_nil] at h1
      cases h1
      exact run_mono (Nat.le_add_left g (f + 1)) h2
    | cons j js1 =>
      rw [run_succ_cons] at h1
      rw [List.cons_append, Nat.succ_add, run_succ_cons, ← List.append_assoc]
      exact ih h1

lemma findSub_eq_none {sid : Nat} {l : List (Subscriber T)} :
    findSub sid l = none ↔ ∀ s ∈ l, s.id ≠ sid := by
  induction l with
  | nil => simp [findSub]
  | cons s rest ih =>
    by_cases hs : s.id = sid
    · simp [findSub, hs]
    · simp [findSub, hs, ih]

lemma findSub_mem {sid : Nat} {l : List (Subscriber T)} {s : Subscriber T}
    (h : findSub sid l = some s) : s ∈ l ∧ s.id = sid := by
  induction l with
  | nil => simp [findSub] at h
  | cons t rest ih =>
    by_cases ht : t.id = sid
    · simp [findSub, ht] at h
      cases h
      exact ⟨List.mem_cons_self _ _, ht⟩
    · simp [findSub, ht] at h
      obtain ⟨hmem, hid⟩ := ih h
      exact ⟨List.mem_cons_of_mem _ hmem, hid⟩

lemma findSub_unique {sid : Nat} {l : List (Subscriber T)} {s t : Subscriber T}
    (hnodup : (l.map Subscriber.id).Nodup) (hfind : findSub sid l = some s)
    (ht : t ∈ l) (hid : t.id = sid) : t = s := by
  induction l with
  | nil => simp [findSub] at hfind
  | cons u rest ih =>
    simp only [List.map_cons, List.nodup_cons] at hnodup
    by_cases hu : u.id = sid
    · simp [findSub, hu] at hfind
      cases hfind
      rcases List.mem_cons.mp ht with h | h
      · exact h
      · exact absurd (by rw [hu, ← hid]; exact List.mem_map_of_mem Subscriber.id h) hnodup.1
    · simp [findSub, hu] at hfind
      rcases List.mem_cons.mp ht with h | h
      · exact absurd (h ▸ hid) hu
      · exact ih hnodup.2 hfind h

lemma findSub_map (sid : Nat) (l : List (Subscriber T)) {f : Subscriber T → Subscriber T}
    (hid : ∀ s, (f s).id = s.id) :
    findSub sid (l.map f) = (findSub sid l).map f := by
  induction l with
  | nil => simp [findSub]
  | cons s rest ih =>
    by_cases hs : s.id = sid
    · simp [findSub, hid, hs]
    · simp [findSub, hid, hs, ih]

lemma findSub_append_right {sid : Nat} {l1 l2 : List (Subscriber T)}
    (h : findSub sid l1 = none) : findSub sid (l1 ++ l2) = findSub sid l2 := by
  induction l1 with
  | nil => simp
  | cons s rest ih =>
    by_cases hs : s.id = sid
    · simp [findSub, hs] at h
    · simp [findSub, hs] at h ⊢
      exact ih h

lemma forall₂_of_mem {α : Type} {R : α → α → Prop} {l : List α}
    (h : ∀ a ∈ l, R a a) : List.Forall₂ R l l := by
  induction l with
  | nil => exact List.Forall₂.nil
  | cons a rest ih =>
    exact List.Forall₂.cons (h a (List.mem_cons_self a rest))
      (ih fun b hb => h b (List.mem_cons_of_mem a hb))

lemma forall₂_map_of_mem {α : Type} {R : α → α → Prop} {l : List α} {f : α → α}
    (h : ∀ a ∈ l, R a (f a)) : List.Forall₂ R l (l.map f) := by
  induction l with
  | nil => exact List.Forall₂.nil
  | cons a rest ih =>
    exact List.Forall₂.cons (h a (List.mem_cons_self a rest))
      (ih fun b hb => h b (List.mem_cons_of_mem a hb))

lemma forall₂_trans' {α : Type} {R S Q : α → α → Prop} {l1 l2 l3 : List α}
    (hc : ∀ a b c, R a b → S b c → Q a c)
    (h1 : List.Forall₂ R l1 l2) (h2 : List.Forall₂ S l2 l3) :
    List.Forall₂ Q l1 l3 := by
  induction h1 generalizing l3 with
  | nil =>
    cases h2
    exact List.Forall₂.nil
  | cons hr _ ih =>
    cases h2 with
    | cons hs hrest => exact List.Forall₂.cons (hc _ _ _ hr hs) (ih hrest)

lemma forall₂_mono_mem {α : Type} {R S : α → α → Prop} {l1 l2 : List α}
    (h : ∀ a ∈ l1, ∀ b, R a b → S a b) (hf : List.Forall₂ R l1 l2) :
    List.Forall₂ S l1 l2 := by
  induction hf with
  | nil => exact List.Forall₂.nil
  | @cons a b l1' l2' hr _ ih =>
    exact List.Forall₂.cons (h a (List.mem_cons_self _ _) b hr)
      (ih fun x hx c => h x (List.mem_cons_of_mem a hx) c)

lemma forall₂_findSub {R : Subscriber T → Subscriber T → Prop} {l l' : List (Subscriber T)}
    {sid : Nat} {a : Subscriber T}
    (hid : ∀ a b, R a b → b.id = a.id)
    (hf : List.Forall₂ R l l') (ha : findSub sid l = some a) :
    ∃ b, findSub sid l' = some b ∧ R a b := by
  induction l generalizing l' with
  | nil => simp [findSub] at ha
  | cons x l1 ih =>
    cases hf with
    | cons hr hrest =>
      rename_i y l2
      by_cases hx : x.id = sid
      · rw [findSub, if_pos hx] at ha
        injection ha with hxa
        subst hxa
        exact ⟨y, by rw [findSub, if_pos (by rw [hid _ y hr]; exact hx)], hr⟩
      · rw [findSub, if_neg hx] at ha
        obtain ⟨b, hb, hrb⟩ := ih hrest ha
        refine ⟨b, ?_, hrb⟩
        rw [findSub, if_neg (by rw [hid x y hr]; exact hx)]
        exact hb

lemma forall₂_findSub_none {R : Subscriber T → Subscriber T → Prop} {l l' : List (Subscriber T)}
    {sid : Nat}
    (hid : ∀ a b, R a b → b.id = a.id)
    (hf : List.Forall₂ R l l') (ha : findSub sid l = none) :
    findSub sid l' = none := by
  induction l generalizing l' with
  | nil =>
    cases hf
    simp [findSub]
  | cons x l1 ih =>
    cases hf with
    | cons hr hrest =>
      rename_i y l2
      by_cases hx : x.id = sid
      · rw [findSub, if_pos hx] at ha
        exact absurd ha (by simp)
      · rw [findSub, if_neg hx] at ha
        rw [findSub, if_neg (by rw [hid x y hr]; exact hx)]
        exact ih hrest ha

lemma forall₂_map_id {R : Subscriber T → Subscriber T → Prop} {l l' : List (Subscriber T)}
    (hid : ∀ a b, R a b → b.id = a.id) (hf : List.Forall₂ R l l') :
    l'.map Subscriber.id = l.map Subscriber.id := by
  induction l generalizing l' with
  | nil =>
    cases hf
    rfl
  | cons x l1 ih =>
    cases hf with
    | cons hr hrest =>
      rename_i y l2
      simp only [List.map_cons]
      rw [hid x y hr, ih hrest]

lemma subStep_refl (s : Subscriber T) : SubStep [] s s := by
  refine ⟨rfl, rfl, rfl, fun h => ⟨h, ?_⟩, fun h => ⟨h, rfl⟩⟩
  simp

lemma subStep_trans {d1 d2 : List T} {s s1 s2 : Subscriber T}
    (h1 : SubStep d1 s s1) (h2 : SubStep d2 s1 s2) : SubStep (d1 ++ d2) s s2 := by
  obtain ⟨hid1, hr1, hc1, hl1, hs1⟩ := h1
  obtain ⟨hid2, hr2, hc2, hl2, hs2⟩ := h2
  refine ⟨hid2.trans hid1, hr2.trans hr1, hc2.trans hc1, ?_, ?_⟩
  · intro h
    obtain ⟨h1l, h1r⟩ := hl2 h
    obtain ⟨h0l, h0r⟩ := hl1 h1l
    exact ⟨h0l, by rw [h1r, h0r, List.append_assoc]⟩
  · intro h
    obtain ⟨h1l, h1r⟩ := hs1 h
    obtain ⟨h2l, h2r⟩ := hs2 h1l
    exact ⟨h2l, by rw [h2r, h1r]⟩

lemma subStep_id {d : List T} {s s' : Subscriber T} (h : SubStep d s s') : s'.id = s.id :=
  h.1

end ActionsStream

namespace ActionsStream

/-! ### Big-step specifications of one delivery pass -/

variable {T : Type}

@[simp] lemma logArrive_itemQueue (v : T) (st : OState T) :
    (logArrive v st).itemQueue = st.itemQueue := rfl

@[simp] lemma logArrive_busy (v : T) (st : OState T) :
    (logArrive v st).busyPushingNext = st.busyPushingNext := rfl

@[simp] lemma logArrive_subjStopped (v : T) (st : OState T) :
    (logArrive v st).subjStopped = st.subjStopped := rfl

@[simp] lemma logArrive_subs (v : T) (st : OState T) :
    (logArrive v st).subs = st.subs := rfl

@[simp] lemma logArrive_arrived (v : T) (st : OState T) :
    (logArrive v st).arrived = st.arrived ++ [v] := rfl

@[simp] lemma logArrive_delivered (v : T) (st : OState T) :
    (logArrive v st).delivered = st.delivered := rfl

@[simp] lemma enqueue_itemQueue (v : T) (st : OState T) :
    (enqueue v st).itemQueue = v :: st.itemQueue := rfl

@[simp] lemma enqueue_busy (v : T) (st : OState T) :
    (enqueue v st).busyPushingNext = st.busyPushingNext := rfl

@[simp] lemma enqueue_subjStopped (v : T) (st : OState T) :
    (enqueue v st).subjStopped = st.subjStopped := rfl

@[simp] lemma enqueue_subs (v : T) (st : OState T) :
    (enqueue v st).subs = st.subs := rfl

@[simp] lemma enqueue_arrived (v : T) (st : OState T) :
    (enqueue v st).arrived = st.arrived := rfl

@[simp] lemma enqueue_delivered (v : T) (st : OState T) :
    (enqueue v st).delivered = st.delivered := rfl

@[simp] lemma stopSub_itemQueue (i : Nat) (st : OState T) :
    (stopSub i st).itemQueue = st.itemQueue := rfl

@[simp] lemma stopSub_busy (i : Nat) (st : OState T) :
    (stopSub i st).busyPushingNext = st.busyPushingNext := rfl

@[simp] lemma stopSub_subjStopped (i : Nat) (st : OState T) :
    (stopSub i st).subjStopped = st.subjStopped := rfl

@[simp] lemma stopSub_arrived (i : Nat) (st : OState T) :
    (stopSub i st).arrived = st.arrived := rfl

@[simp] lemma stopSub_delivered (i : Nat) (st : OState T) :
    (stopSub i st).delivered = st.delivered := rfl

@[simp] lemma recordReceive_itemQueue (i : Nat) (v : T) (st : OState T) :
    (recordReceive i v st).itemQueue = st.itemQueue := rfl

@[simp] lemma recordReceive_busy (i : Nat) (v : T) (st : OState T) :
    (recordReceive i v st).busyPushingNext = st.busyPushingNext := rfl

@[simp] lemma recordReceive_subjStopped (i : Nat) (v : T) (st : OState T) :
    (recordReceive i v st).subjStopped = st.subjStopped := rfl

@[simp] lemma recordReceive_arrived (i : Nat) (v : T) (st : OState T) :
    (recordReceive i v st).arrived = st.arrived := rfl

@[simp] lemma recordReceive_delivered (i : Nat) (v : T) (st : OState T) :
    (recordReceive i v st).delivered = st.delivered := rfl

@[simp] lemma setBusy_itemQueue (st : OState T) : (setBusy st).itemQueue = st.itemQueue := rfl

@[simp] lemma setBusy_busy (st : OState T) : (setBusy st).busyPushingNext = true := rfl

@[simp] lemma setBusy_subjStopped (st : OState T) :
    (setBusy st).subjStopped = st.subjStopped := rfl

@[simp] lemma setBusy_subs (st : OState T) : (setBusy st).subs = st.subs := rfl

@[simp] lemma setBusy_arrived (st : OState T) : (setBusy st).arrived = st.arrived := rfl

@[simp] lemma setBusy_delivered (st : OState T) : (setBusy st).delivered = st.delivered := rfl

@[simp] lemma setIdle_itemQueue (st : OState T) : (setIdle st).itemQueue = st.itemQueue := rfl

@[simp] lemma setIdle_busy (st : OState T) : (setIdle st).busyPushingNext = false := rfl

@[simp] lemma setIdle_subjStopped (st : OState T) :
    (setIdle st).subjStopped = st.subjStopped := rfl

@[simp] lemma setIdle_subs (st : OState T) : (setIdle st).subs = st.subs := rfl

@[simp] lemma setIdle_arrived (st : OState T) : (setIdle st).arrived = st.arrived := rfl

@[simp] lemma setIdle_delivered (st : OState T) : (setIdle st).delivered = st.delivered := rfl

@[simp] lemma logDeliver_itemQueue (v : T) (st : OState T) :
    (logDeliver v st).itemQueue = st.itemQueue := rfl

@[simp] lemma logDeliver_busy (v : T) (st : OState T) :
    (logDeliver v st).busyPushingNext = st.busyPushingNext := rfl

@[simp] lemma logDeliver_subjStopped (v : T) (st : OState T) :
    (logDeliver v st).subjStopped = st.subjStopped := rfl

@[simp] lemma logDeliver_subs (v : T) (st : OState T) : (logDeliver v st).subs = st.subs := rfl

@[simp] lemma logDeliver_arrived (v : T) (st : OState T) :
    (logDeliver v st).arrived = st.arrived := rfl

@[simp] lemma logDeliver_delivered (v : T) (st : OState T) :
    (logDeliver v st).delivered = st.delivered ++ [v] := rfl

@[simp] lemma popQueue_itemQueue (st : OState T) :
    (popQueue st).itemQueue = st.itemQueue.dropLast := rfl

@[simp] lemma popQueue_busy (st : OState T) :
    (popQueue st).busyPushingNext = st.busyPushingNext := rfl

@[simp] lemma popQueue_subjStopped (st : OState T) :
    (popQueue st).subjStopped = st.subjStopped := rfl

@[simp] lemma popQueue_subs (st : OState T) : (popQueue st).subs = st.subs := rfl

@[simp] lemma popQueue_arrived (st : OState T) : (popQueue st).arrived = st.arrived := rfl

@[simp] lemma popQueue_delivered (st : OState T) : (popQueue st).delivered = st.delivered := rfl

lemma callNext_busy {f : Nat} {v : T} {st st' : OState T} (hb : st.busyPushingNext = true)
    (h : run f [Job.callNext v] st = some st') :
    st' = enqueue v (logArrive v st) := by
  cases f with
  | zero => simp [run_zero_cons] at h
  | succ f =>
    rw [run_succ_cons] at h
    simp only [stepJob, logArrive_busy, hb, if_true, List.nil_append] at h
    rw [run_nil] at h
    exact (Option.some_inj.mp h).symm

lemma clearBusy_run {f : Nat} {st st' : OState T}
    (h : run f [Job.clearBusy] st = some st') :
    st' = setIdle st := by
  cases f with
  | zero => simp [run_zero_cons] at h
  | succ f =>
    rw [run_succ_cons] at h
    simp only [stepJob, List.nil_append] at h
    rw [run_nil] at h
    exact (Option.some_inj.mp h).symm

lemma stopSub_subStep (i : Nat) (st : OState T) :
    List.Forall₂ (SubStep ([] : List T)) st.subs (stopSub i st).subs := by
  simp only [stopSub]
  apply forall₂_map_of_mem
  intro s _
  by_cases hs : s.id = i
  · simp only [if_pos hs]
    refine ⟨rfl, rfl, rfl, fun h => ?_, fun h => ⟨rfl, rfl⟩⟩
    simp at h
  · simp only [if_neg hs]
    exact subStep_refl s

lemma subStep_trans_nil {s s1 s2 : Subscriber T} (h1 : SubStep ([] : List T) s s1)
    (h2 : SubStep ([] : List T) s1 s2) : SubStep ([] : List T) s s2 := by
  simpa using subStep_trans h1 h2

lemma cmds_spec {cs : List (Cmd T)} {f : Nat} {sid : Nat} {st st' : OState T}
    (hb : st.busyPushingNext = true)
    (h : run f [Job.runCmds sid cs] st = some st') :
    st'.arrived = st.arrived ++ emitsOf cs ∧
    st'.itemQueue = (emitsOf cs).reverse ++ st.itemQueue ∧
    st'.delivered = st.delivered ∧
    st'.busyPushingNext = true ∧
    st'.subjStopped = st.subjStopped ∧
    List.Forall₂ (SubStep ([] : List T)) st.subs st'.subs := by
  induction cs generalizing f st with
  | nil =>
    cases f with
    | zero => simp [run_zero_cons] at h
    | succ f =>
      rw [run_succ_cons] at h
      simp only [stepJob, List.nil_append] at h
      rw [run_nil] at h
      cases Option.some_inj.mp h
      exact ⟨by simp [emitsOf], by simp [emitsOf], rfl, hb, rfl,
        forall₂_of_mem fun s _ => subStep_refl s⟩
  | cons c cs ih =>
    cases f with
    | zero => simp [run_zero_cons] at h
    | succ f =>
      rw [run_succ_cons] at h
      cases c with
      | emit w =>
        simp only [stepJob, List.append_nil] at h
        have h2 : run f ([Job.callNext w] ++ [Job.runCmds sid cs]) st = some st' := by
          simpa using h
        obtain ⟨st1, hA, hB⟩ := run_split h2
        have hst1 := callNext_busy hb hA
        subst hst1
        obtain ⟨harr, hq, hd, hb', hss, hfor⟩ := ih (by simp [hb]) hB
        refine ⟨?_, ?_, ?_, hb', ?_, ?_⟩
        · rw [harr]; simp [emitsOf, List.append_assoc]
        · rw [hq]; simp [emitsOf]
        · rw [hd]; simp
        · rw [hss]; simp
        · simpa using hfor
      | unsub i =>
        simp only [stepJob, List.append_nil] at h
        obtain ⟨harr, hq, hd, hb', hss, hfor⟩ := ih (by simp [hb]) h
        have hfor0 := stopSub_subStep i st
        have hfor1 : List.Forall₂ (SubStep ([] : List T)) (stopSub i st).subs st'.subs := hfor
        refine ⟨?_, ?_, ?_, hb', ?_, ?_⟩
        · rw [harr]; simp [emitsOf]
        · rw [hq]; simp [emitsOf]
        · rw [hd]; simp
        · rw [hss]; simp
        · exact forall₂_trans' (R := SubStep ([] : List T)) (S := SubStep ([] : List T))
            (Q := SubStep ([] : List T)) (fun a b c h1 h2 => subStep_trans_nil h1 h2) hfor0 hfor1
      | throwE =>
        simp only [stepJob, List.nil_append] at h
        rw [run_nil] at h
        cases Option.some_inj.mp h
        refine ⟨by simp [emitsOf], by simp [emitsOf], by simp, by simp [hb], by simp, ?_⟩
        exact stopSub_subStep sid st

lemma deliverTo_spec {f : Nat} {a : T} {i : Nat} {st st' : OState T}
    (hnodup : (st.subs.map Subscriber.id).Nodup)
    (hb : st.busyPushingNext = true)
    (h : run f [Job.deliverTo a i] st = some st') :
    ∃ E : List T,
      st'.arrived = st.arrived ++ E ∧
      st'.itemQueue = E.reverse ++ st.itemQueue ∧
      st'.delivered = st.delivered ∧
      st'.busyPushingNext = true ∧
      st'.subjStopped = st.subjStopped ∧
      List.Forall₂ (fun s s' => SubStep (if s.id = i then [a] else []) s s') st.subs st'.subs := by
  cases f with
  | zero => simp [run_zero_cons] at h
  | succ f =>
    rw [run_succ_cons] at h
    cases hfind : findSub i st.subs with
    | none =>
      simp only [stepJob, hfind, List.nil_append] at h
      rw [run_nil] at h
      cases Option.some_inj.mp h
      refine ⟨[], by simp, by simp, rfl, hb, rfl, ?_⟩
      apply forall₂_of_mem
      intro s hs
      have hne : s.id ≠ i := findSub_eq_none.mp hfind s hs
      simp only [if_neg hne]
      exact subStep_refl s
    | some s0 =>
      by_cases hstop : s0.stopped = true
      · simp only [stepJob, hfind, hstop, if_true, List.nil_append] at h
        rw [run_nil] at h
        cases Option.some_inj.mp h
        refine ⟨[], by simp, by simp, rfl, hb, rfl, ?_⟩
        apply forall₂_of_mem
        intro s hs
        by_cases hsi : s.id = i
        · have hss0 : s = s0 := findSub_unique hnodup hfind hs hsi
          simp only [if_pos hsi]
          refine ⟨rfl, rfl, rfl, fun hl => ?_, fun hl => ⟨hl, rfl⟩⟩
          rw [hss0] at hl
          rw [hstop] at hl
          cases hl
        · simp only [if_neg hsi]
          exact subStep_refl s
      · simp only [stepJob, hfind, hstop, if_false, List.append_nil] at h
        obtain ⟨harr, hq, hd, hb', hss, hfor⟩ :=
          cmds_spec (by simp [hb]) h
        refine ⟨emitsOf (s0.react a), ?_, ?_, ?_, hb', ?_, ?_⟩
        · rw [harr]; simp
        · rw [hq]; simp
        · rw [hd]; simp
        · rw [hss]; simp
        · have hfor0 : List.Forall₂ (fun s s' => SubStep (if s.id = i then [a] else []) s s')
              st.subs (recordReceive i a st).subs := by
            simp only [recordReceive]
            apply forall₂_map_of_mem
            intro s hs
            by_cases hsi : s.id = i
            · have hss0 : s = s0 := findSub_unique hnodup hfind hs hsi
              simp only [if_pos hsi]
              refine ⟨rfl, rfl, rfl, fun hl => ⟨?_, rfl⟩, fun hl => ?_⟩
              · simpa using hl
              · rw [hss0] at hl
                exact absurd hl hstop
            · simp only [if_neg hsi]
              exact subStep_refl s
          refine forall₂_trans' (R := fun s s' => SubStep (if s.id = i then [a] else []) s s')
            (S := SubStep ([] : List T))
            (Q := fun s s' => SubStep (if s.id = i then [a] else []) s s')
            (fun s s1 s2 h1 h2 => by simpa using subStep_trans h1 h2) hfor0 hfor

lemma deliverList_spec {ids : List Nat} {f : Nat} {a : T} {st st' : OState T}
    (hnodupS : (st.subs.map Subscriber.id).Nodup)
    (hnodupI : ids.Nodup)
    (hb : st.busyPushingNext = true)
    (h : run f (ids.map (Job.deliverTo a)) st = some st') :
    ∃ E : List T,
      st'.arrived = st.arrived ++ E ∧
      st'.itemQueue = E.reverse ++ st.itemQueue ∧
      st'.delivered = st.delivered ∧
      st'.busyPushingNext = true ∧
      st'.subjStopped = st.subjStopped ∧
      List.Forall₂ (fun s s' => SubStep (if s.id ∈ ids then [a] else []) s s') st.subs st'.subs := by
  induction ids generalizing f st with
  | nil =>
    rw [List.map_nil, run_nil] at h
    cases Option.some_inj.mp h
    refine ⟨[], by simp, by simp, rfl, hb, rfl, ?_⟩
    apply forall₂_of_mem
    intro s _
    simpa using subStep_refl s
  | cons i rest ih =>
    rw [List.map_cons] at h
    have h2 : run f ([Job.deliverTo a i] ++ rest.map (Job.deliverTo a)) st = some st' := by
      simpa using h
    obtain ⟨st1, hA, hB⟩ := run_split h2
    obtain ⟨E1, harr1, hq1, hd1, hb1, hss1, hfor1⟩ := deliverTo_spec hnodupS hb hA
    have hid1 : ∀ s s1 : Subscriber T,
        SubStep (if s.id = i then [a] else []) s s1 → s1.id = s.id :=
      fun s s1 hss => hss.1
    have hnodupS1 : (st1.subs.map Subscriber.id).Nodup := by
      rw [forall₂_map_id hid1 hfor1]
      exact hnodupS
    have hmemI := List.nodup_cons.mp hnodupI
    obtain ⟨E2, harr2, hq2, hd2, hb2, hss2, hfor2⟩ := ih hnodupS1 hmemI.2 hb1 hB
    refine ⟨E1 ++ E2, ?_, ?_, ?_, hb2, ?_, ?_⟩
    · rw [harr2, harr1, List.append_assoc]
    · rw [hq2, hq1, List.reverse_append, List.append_assoc]
    · rw [hd2, hd1]
    · rw [hss2, hss1]
    · have hdelta : ∀ n : Nat,
          ((if n = i then [a] else []) ++ (if n ∈ rest then [a] else [])) =
            (if n ∈ i :: rest then [a] else []) := by
        intro n
        by_cases hn : n = i
        · subst hn
          simp [hmemI.1]
        · by_cases hr : n ∈ rest <;> simp [hn, hr]
      refine forall₂_trans'
        (R := fun s s' => SubStep (if s.id = i then [a] else []) s s')
        (S := fun s s' => SubStep (if s.id ∈ rest then [a] else []) s s')
        (Q := fun s s' => SubStep (if s.id ∈ i :: rest then [a] else []) s s')
        (fun s s1 s2 h1 h2 => ?_) hfor1 hfor2
      have h1' : SubStep (if s.id = i then [a] else []) s s1 := h1
      have h2' : SubStep (if s1.id ∈ rest then [a] else []) s1 s2 := h2
      rw [h1'.1] at h2'
      show SubStep (if s.id ∈ i :: rest then [a] else []) s s2
      rw [← hdelta s.id]
      exact subStep_trans h1' h2'

lemma superNext_spec {f : Nat} {a : T} {st st' : OState T}
    (hnodup : (st.subs.map Subscriber.id).Nodup)
    (hb : st.busyPushingNext = true)
    (hns : st.subjStopped = false)
    (h : run f [Job.superNext a] st = some st') :
    ∃ E : List T,
      st'.arrived = st.arrived ++ E ∧
      st'.itemQueue = E.reverse ++ st.itemQueue ∧
      st'.delivered = st.delivered ++ [a] ∧
      st'.busyPushingNext = true ∧
      st'.subjStopped = false ∧
      List.Forall₂ (SubStep [a]) st.subs st'.subs := by
  cases f with
  | zero => simp [run_zero_cons] at h
  | succ f =>
    rw [run_succ_cons] at h
    simp only [stepJob, hns, Bool.false_eq_true, if_false, List.append_nil] at h
    have hmap : (st.subs.map fun s => Job.deliverTo a s.id) =
        (st.subs.map Subscriber.id).map (Job.deliverTo a) := by
      rw [List.map_map]
      rfl
    rw [hmap] at h
    have hS : (((logDeliver a st).subs).map Subscriber.id).Nodup := by simpa using hnodup
    have hbD : (logDeliver a st).busyPushingNext = true := by simpa using hb
    obtain ⟨E, harr, hq, hd, hb', hss, hfor⟩ := deliverList_spec hS hnodup hbD h
    refine ⟨E, by simpa using harr, by simpa using hq, by simpa using hd, hb',
      by rw [hss]; simpa using hns, ?_⟩
    have hfor' : List.Forall₂
        (fun s s' => SubStep (if s.id ∈ st.subs.map Subscriber.id then [a] else []) s s')
        st.subs st'.subs := hfor
    refine forall₂_mono_mem (fun s hs s' hss' => ?_) hfor'
    have hmem : s.id ∈ st.subs.map Subscriber.id := List.mem_map_of_mem Subscriber.id hs
    have hss'' : SubStep (if s.id ∈ st.subs.map Subscriber.id then [a] else []) s s' := hss'
    rwa [if_pos hmem] at hss''

lemma drain_spec {f : Nat} {st st' : OState T}
    (hnodup : (st.subs.map Subscriber.id).Nodup)
    (hb : st.busyPushingNext = true)
    (hns : st.subjStopped = false)
    (h : run f [Job.drainLoop] st = some st') :
    ∃ E : List T,
      st'.arrived = st.arrived ++ E ∧
      st'.delivered = st.delivered ++ st.itemQueue.reverse ++ E ∧
      st'.itemQueue = [] ∧
      st'.busyPushingNext = true ∧
      st'.subjStopped = false ∧
      List.Forall₂ (SubStep (st.itemQueue.reverse ++ E)) st.subs st'.subs := by
  induction f generalizing st with
  | zero => simp [run_zero_cons] at h
  | succ f ih =>
    rw [run_succ_cons] at h
    cases hql : st.itemQueue.getLast? with
    | none =>
      have hqe : st.itemQueue = [] := List.getLast?_eq_none_iff.mp hql
      simp only [stepJob, hql, List.nil_append] at h
      rw [run_nil] at h
      cases Option.some_inj.mp h
      refine ⟨[], by simp, by simp [hqe], hqe, hb, hns, ?_⟩
      rw [hqe]
      simpa using forall₂_of_mem fun s _ => subStep_refl s
    | some v =>
      simp only [stepJob, hql, List.append_nil] at h
      have h2 : run f ([Job.superNext v] ++ [Job.drainLoop]) (popQueue st) = some st' := by
        simpa using h
      obtain ⟨st1, hA, hB⟩ := run_split h2
      have hSp : (((popQueue st).subs).map Subscriber.id).Nodup := by simpa using hnodup
      have hbp : (popQueue st).busyPushingNext = true := by simpa using hb
      have hnsp : (popQueue st).subjStopped = false := by simpa using hns
      obtain ⟨E1, harr1, hq1, hd1, hb1, hss1, hfor1⟩ := superNext_spec hSp hbp hnsp hA
      have hid1 : ∀ s s1 : Subscriber T, SubStep [v] s s1 → s1.id = s.id :=
        fun s s1 hss => hss.1
      have hS1 : (st1.subs.map Subscriber.id).Nodup := by
        rw [forall₂_map_id hid1 hfor1]
        simpa using hnodup
      obtain ⟨E2, harr2, hd2, hq2, hb2, hss2, hfor2⟩ := ih hS1 hb1 hss1 hB
      have hqdecomp : st.itemQueue.dropLast ++ [v] = st.itemQueue :=
        List.dropLast_append_getLast? v (by simp [hql])
      have hqrev : st.itemQueue.reverse = v :: st.itemQueue.dropLast.reverse := by
        rw [← hqdecomp]
        simp
      refine ⟨E1 ++ E2, ?_, ?_, hq2, hb2, hss2, ?_⟩
      · rw [harr2, harr1]
        simp [List.append_assoc]
      · rw [hd2, hd1, hq1]
        simp only [popQueue_itemQueue, popQueue_delivered, popQueue_arrived]
        rw [hqrev]
        simp [List.reverse_append, List.append_assoc]
      · have hfor1' : List.Forall₂ (SubStep [v]) st.subs st1.subs := hfor1
        have hcomp := forall₂_trans' (R := SubStep [v])
          (S := SubStep (st1.itemQueue.reverse ++ E2))
          (Q := SubStep ([v] ++ (st1.itemQueue.reverse ++ E2)))
          (fun s s1 s2 h1 h2 => subStep_trans h1 h2) hfor1' hfor2
        have hdelta : [v] ++ (st1.itemQueue.reverse ++ E2) =
            st.itemQueue.reverse ++ (E1 ++ E2) := by
          rw [hq1, hqrev]
          simp [List.reverse_append, List.append_assoc]
        rw [hdelta] at hcomp
        exact hcomp

lemma next_spec {f : Nat} {v : T} {st st' : OState T}
    (hnodup : (st.subs.map Subscriber.id).Nodup)
    (hb : st.busyPushingNext = false)
    (hq : st.itemQueue = [])
    (hns : st.subjStopped = false)
    (h : run f [Job.callNext v] st = some st') :
    ∃ E : List T,
      st'.arrived = st.arrived ++ v :: E ∧
      st'.delivered = st.delivered ++ v :: E ∧
      st'.itemQueue = [] ∧
      st'.busyPushingNext = false ∧
      st'.subjStopped = false ∧
      List.Forall₂ (SubStep (v :: E)) st.subs st'.subs := by
  cases f with
  | zero => simp [run_zero_cons] at h
  | succ f =>
    rw [run_succ_cons] at h
    simp only [stepJob, logArrive_busy, hb, Bool.false_eq_true, if_false, List.append_nil] at h
    have h2 : run f ([Job.superNext v] ++ ([Job.drainLoop] ++ [Job.clearBusy]))
        (setBusy (logArrive v st)) = some st' := by
      simpa using h
    obtain ⟨st1, hA, hBC⟩ := run_split h2
    obtain ⟨st2, hB, hC⟩ := run_split hBC
    have hS0 : (((setBusy (logArrive v st)).subs).map Subscriber.id).Nodup := by
      simpa using hnodup
    have hns0 : (setBusy (logArrive v st)).subjStopped = false := by simpa using hns
    obtain ⟨E1, harr1, hq1, hd1, hb1, hss1, hfor1⟩ :=
      superNext_spec hS0 (setBusy_busy _) hns0 hA
    have hid1 : ∀ s s1 : Subscriber T, SubStep [v] s s1 → s1.id = s.id :=
      fun s s1 hss => hss.1
    have hS1 : (st1.subs.map Subscriber.id).Nodup := by
      rw [forall₂_map_id hid1 hfor1]
      simpa using hnodup
    obtain ⟨E2, harr2, hd2, hq2, hb2, hss2, hfor2⟩ := drain_spec hS1 hb1 hss1 hB
    have hst' := clearBusy_run hC
    subst hst'
    have hq1' : st1.itemQueue = E1.reverse := by
      rw [hq1]
      simp [hq]
    refine ⟨E1 ++ E2, ?_, ?_, ?_, ?_, ?_, ?_⟩
    · show st2.arrived = st.arrived ++ v :: (E1 ++ E2)
      rw [harr2, harr1]
      simp [List.append_assoc]
    · show st2.delivered = st.delivered ++ v :: (E1 ++ E2)
      rw [hd2, hd1, hq1']
      simp [List.append_assoc]
    · show st2.itemQueue = []
      exact hq2
    · simp
    · show st2.subjStopped = false
      exact hss2
    · show List.Forall₂ (SubStep (v :: (E1 ++ E2))) st.subs st2.subs
      have hfor1' : List.Forall₂ (SubStep [v]) st.subs st1.subs := hfor1
      have hcomp := forall₂_trans' (R := SubStep [v])
        (S := SubStep (st1.itemQueue.reverse ++ E2))
        (Q := SubStep ([v] ++ (st1.itemQueue.reverse ++ E2)))
        (fun s s1 s2 h1 h2 => subStep_trans h1 h2) hfor1' hfor2
      have hdelta : [v] ++ (st1.itemQueue.reverse ++ E2) = v :: (E1 ++ E2) := by
        rw [hq1']
        simp
      rw [hdelta] at hcomp
      exact hcomp

lemma submitAll_spec {fuel : Nat} {vs : List T} {st st' : OState T}
    (hnodup : (st.subs.map Subscriber.id).Nodup)
    (hb : st.busyPushingNext = false)
    (hq : st.itemQueue = [])
    (hns : st.subjStopped = false)
    (h : submitAll fuel vs st = some st') :
    ∃ E : List T,
      st'.arrived = st.arrived ++ E ∧
      st'.delivered = st.delivered ++ E ∧
      st'.itemQueue = [] ∧
      st'.busyPushingNext = false ∧
      st'.subjStopped = false ∧
      List.Forall₂ (SubStep E) st.subs st'.subs := by
  induction vs generalizing st with
  | nil =>
    simp only [submitAll] at h
    cases Option.some_inj.mp h
    exact ⟨[], by simp, by simp, hq, hb, hns,
      forall₂_of_mem fun s _ => subStep_refl s⟩
  | cons v rest ih =>
    simp only [submitAll] at h
    cases hnx : next fuel v st with
    | none => rw [hnx] at h; cases h
    | some st1 =>
      rw [hnx] at h
      obtain ⟨E1, harr1, hd1, hq1, hb1, hns1, hfor1⟩ :=
        next_spec hnodup hb hq hns hnx
    
      have hid1 : ∀ s s1 : Subscriber T, SubStep (v :: E1) s s1 → s1.id = s.id :=
        fun s s1 hss => hss.1
      have hS1 : (st1.subs.map Subscriber.id).Nodup := by
        rw [forall₂_map_id hid1 hfor1]
        exact hnodup
      obtain ⟨E2, harr2, hd2, hq2, hb2, hns2, hfor2⟩ := ih hS1 hb1 hq1 hns1 h
      refine ⟨(v :: E1) ++ E2, ?_, ?_, hq2, hb2, hns2, ?_⟩
      · rw [harr2, harr1, List.append_assoc]
      · rw [hd2, hd1, List.append_assoc]
      · exact forall₂_trans' (R := SubStep (v :: E1)) (S := SubStep E2)
          (Q := SubStep ((v :: E1) ++ E2))
          (fun s s1 s2 h1 h2 => subStep_trans h1 h2) hfor1 hfor2

lemma superNext_stopped {f : Nat} {v : T} {st st' : OState T}
    (hstop : st.subjStopped = true)
    (h : run f [Job.superNext v] st = some st') : st' = st := by
  cases f with
  | zero => simp [run_zero_cons] at h
  | succ f =>
    rw [run_succ_cons] at h
    simp only [stepJob, hstop, if_true, List.nil_append] at h
    rw [run_nil] at h
    exact (Option.some_inj.mp h).symm

lemma drain_stopped {f : Nat} {st st' : OState T}
    (hstop : st.subjStopped = true)
    (h : run f [Job.drainLoop] st = some st') :
    st'.subs = st.subs ∧ st'.delivered = st.delivered ∧ st'.subjStopped = true ∧
    st'.busyPushingNext = st.busyPushingNext ∧ st'.arrived = st.arrived := by
  induction f generalizing st with
  | zero => simp [run_zero_cons] at h
  | succ f ih =>
    rw [run_succ_cons] at h
    cases hql : st.itemQueue.getLast? with
    | none =>
      simp only [stepJob, hql, List.nil_append] at h
      rw [run_nil] at h
      cases Option.some_inj.mp h
      exact ⟨rfl, rfl, hstop, rfl, rfl⟩
    | some v =>
      simp only [stepJob, hql, List.append_nil] at h
      have h2 : run f ([Job.superNext v] ++ [Job.drainLoop]) (popQueue st) = some st' := by
        simpa using h
      obtain ⟨st1, hA, hB⟩ := run_split h2
      have hst1 := superNext_stopped (by simpa using hstop) hA
      subst hst1
      obtain ⟨h1, h2', h3, h4, h5⟩ := ih (by simpa using hstop) hB
      refine ⟨by simpa using h1, by simpa using h2', h3, by simpa using h4, by simpa using h5⟩

lemma drain_stopped_terminates :
    ∀ (n : Nat) (st : OState T), st.subjStopped = true → st.itemQueue.length = n →
      ∃ st'', run (2 * n + 1) [Job.drainLoop] st = some st'' := by
  intro n
  induction n with
  | zero =>
    intro st hstop hlen
    have hqe : st.itemQueue = [] := List.eq_nil_of_length_eq_zero hlen
    refine ⟨st, ?_⟩
    rw [run_succ_cons]
    simp only [stepJob, hqe, List.getLast?_nil, List.nil_append]
    exact run_nil _ _
  | succ n ih =>
    intro st hstop hlen
    have hne : st.itemQueue ≠ [] := by
      intro hc
      rw [hc] at hlen
      simp at hlen
    cases hql : st.itemQueue.getLast? with
    | none => exact absurd (List.getLast?_eq_none_iff.mp hql) hne
    | some v =>
      have hlen1 : (popQueue st).itemQueue.length = n := by
        simp only [popQueue_itemQueue, List.length_dropLast, hlen]
        rfl
      obtain ⟨st'', hrun⟩ := ih (popQueue st) (by simpa using hstop) hlen1
      refine ⟨st'', ?_⟩
      have hstep1 : run (2 * (n + 1) + 1) [Job.drainLoop] st =
          run (2 * n + 2) [Job.superNext v, Job.drainLoop] (popQueue st) := by
        rw [show 2 * (n + 1) + 1 = (2 * n + 2) + 1 by ring, run_succ_cons]
        simp [stepJob, hql]
      rw [hstep1, show 2 * n + 2 = (2 * n + 1) + 1 by ring, run_succ_cons]
      simp only [stepJob, show (popQueue st).subjStopped = true by simpa using hstop, if_true,
        List.nil_append]
      exact hrun

lemma stepJob_stopped_frozen (j : Job T) (st : OState T) {sid : Nat} {t : Subscriber T}
    (hfind : findSub sid st.subs = some t) (hstop : t.stopped = true) :
    ∃ t', findSub sid (stepJob j st).2.subs = some t' ∧ t'.stopped = true ∧
      t'.received = t.received := by
  have hid : t.id = sid := (findSub_mem hfind).2
  cases j with
  | callNext v =>
    simp only [stepJob]
    by_cases hbusy : (logArrive v st).busyPushingNext = true
    · rw [if_pos hbusy]
      exact ⟨t, hfind, hstop, rfl⟩
    · rw [if_neg hbusy]
      exact ⟨t, hfind, hstop, rfl⟩
  | superNext v =>
    simp only [stepJob]
    by_cases hss : st.subjStopped = true
    · rw [if_pos hss]
      exact ⟨t, hfind, hstop, rfl⟩
    · rw [if_neg hss]
      exact ⟨t, hfind, hstop, rfl⟩
  | deliverTo v i =>
    simp only [stepJob]
    cases hf2 : findSub i st.subs with
    | none => exact ⟨t, hfind, hstop, rfl⟩
    | some s0 =>
      by_cases hs0 : s0.stopped = true
      · refine ⟨t, ?_, hstop, rfl⟩
        show findSub sid (if s0.stopped = true then (([] : List (Job T)), st)
          else ([Job.runCmds i (s0.react v)], recordReceive i v st)).2.subs = some t
        rw [if_pos hs0]
        exact hfind
      · have hine : i ≠ sid := by
          intro hc
          rw [hc, hfind] at hf2
          cases Option.some_inj.mp hf2
          exact hs0 hstop
        refine ⟨t, ?_, hstop, rfl⟩
        show findSub sid (if s0.stopped = true then (([] : List (Job T)), st)
          else ([Job.runCmds i (s0.react v)], recordReceive i v st)).2.subs = some t
        rw [if_neg hs0]
        have hmap := findSub_map sid st.subs
          (f := fun s => if s.id = i then { s with received := s.received ++ [v] } else s)
          (fun s => by by_cases hsi : s.id = i <;> simp [hsi])
        show findSub sid (recordReceive i v st).subs = some t
        simp only [recordReceive]
        rw [hmap, hfind]
        simp [hid, hine.symm]
  | runCmds sid' cs =>
    cases cs with
    | nil => exact ⟨t, hfind, hstop, rfl⟩
    | cons c cs =>
      have hstopSub : ∀ i : Nat, ∃ t', findSub sid (stopSub i st).subs = some t' ∧
          t'.stopped = true ∧ t'.received = t.received := by
        intro i
        have hmap := findSub_map sid st.subs
          (f := fun s => if s.id = i then { s with stopped := true } else s)
          (fun s => by by_cases hsi : s.id = i <;> simp [hsi])
        by_cases hit : t.id = i
        · refine ⟨{ t with stopped := true }, ?_, rfl, rfl⟩
          show findSub sid (stopSub i st).subs = some { t with stopped := true }
          simp only [stopSub]
          rw [hmap, hfind]
          simp [hit]
        · refine ⟨t, ?_, hstop, rfl⟩
          show findSub sid (stopSub i st).subs = some t
          simp only [stopSub]
          rw [hmap, hfind]
          simp [hit]
      cases c with
      | emit w => exact ⟨t, hfind, hstop, rfl⟩
      | unsub i => exact hstopSub i
      | throwE => exact hstopSub sid'
  | drainLoop =>
    simp only [stepJob]
    cases hql : st.itemQueue.getLast? with
    | none => exact ⟨t, hfind, hstop, rfl⟩
    | some v => exact ⟨t, hfind, hstop, rfl⟩
  | clearBusy => exact ⟨t, hfind, hstop, rfl⟩

lemma run_stopped_frozen {f : Nat} {js : List (Job T)} {st st' : OState T}
    (h : run f js st = some st') {sid : Nat} {t : Subscriber T}
    (hfind : findSub sid st.subs = some t) (hstop : t.stopped = true) :
    ∃ t', findSub sid st'.subs = some t' ∧ t'.stopped = true ∧
      t'.received = t.received := by
  induction f generalizing js st t with
  | zero =>
    cases js with
    | nil =>
      rw [run_nil] at h
      cases Option.some_inj.mp h
      exact ⟨t, hfind, hstop, rfl⟩
    | cons j js => simp [run_zero_cons] at h
  | succ f ih =>
    cases js with
    | nil =>
      rw [run_nil] at h
      cases Option.some_inj.mp h
      exact ⟨t, hfind, hstop, rfl⟩
    | cons j js =>
      rw [run_succ_cons] at h
      obtain ⟨t2, hfind2, hstop2, hrec2⟩ := stepJob_stopped_frozen j st hfind hstop
      obtain ⟨t', hfind', hstop', hrec'⟩ := ih h hfind2 hstop2
      exact ⟨t', hfind', hstop', hrec'.trans hrec2⟩

lemma drain_nil {f : Nat} {st st' : OState T} (hq : st.itemQueue = [])
    (h : run f [Job.drainLoop] st = some st') : st' = st := by
  cases f with
  | zero => simp [run_zero_cons] at h
  | succ f =>
    rw [run_succ_cons] at h
    simp only [stepJob, hq, List.getLast?_nil, List.nil_append] at h
    rw [run_nil] at h
    exact (Option.some_inj.mp h).symm

lemma subComplete_id (s : Subscriber T) : (subComplete s).id = s.id := by
  by_cases h : s.stopped = true <;> simp [subComplete, h]

lemma subComplete_idem (s : Subscriber T) : subComplete (subComplete s) = subComplete s := by
  by_cases h : s.stopped = true <;> simp [subComplete, h]

lemma complete_idem (st : OState T) : complete (complete st) = complete st := by
  have hsubs : (st.subs.map subComplete).map subComplete = st.subs.map subComplete := by
    rw [List.map_map]
    apply List.map_congr_left
    intro s _
    exact subComplete_idem s
  simp only [complete, hsubs]

lemma complete_once {st : OState T} {sid : Nat} {s : Subscriber T}
    (hfind : findSub sid st.subs = some s) (hlive : s.stopped = false) :
    findSub sid (complete st).subs =
      some { s with stopped := true, completedCount := s.completedCount + 1 } := by
  simp only [complete]
  rw [findSub_map sid st.subs subComplete_id, hfind]
  simp [subComplete, hlive]

lemma shareAttach_iter (k : Nat) (c : Bool) (e : Nat) :
    shareAttach^[k + 1] { refCount := 0, connected := c, establishments := e } =
      { refCount := k + 1, connected := true, establishments := e + 1 } := by
  induction k with
  | zero => simp [shareAttach]
  | succ k ih =>
    rw [Function.iterate_succ_apply', ih]
    simp [shareAttach]

lemma shareDetach_iter (k : Nat) (e : Nat) :
    shareDetach^[k + 1] { refCount := k + 1, connected := true, establishments := e } =
      ({ refCount := 0, connected := false, establishments := e } : ShareState) := by
  induction k with
  | zero => simp [shareDetach]
  | succ k ih =>
    rw [Function.iterate_succ_apply]
    have hstep : shareDetach { refCount := k + 1 + 1, connected := true, establishments := e } =
        { refCount := k + 1, connected := true, establishments := e } := by
      simp [shareDetach]
    rw [hstep, ih]

lemma drop_append_cons {α : Type} (l : List α) (x : α) (t : List α) :
    (l ++ x :: t).drop (l.length + 1) = t := by
  have h1 : l ++ x :: t = (l ++ [x]) ++ t := by simp
  rw [h1, show l.length + 1 = (l ++ [x]).length by simp, List.drop_left]

/-! ### The claims -/

/-- C1: for every sequence of top-level submissions to the ordered
broadcast channel — including values submitted reentrantly from inside a
subscriber callback during delivery of an earlier item — every subscriber
that is registered throughout observes the values in exactly the arrival
order: its received list is extended by precisely the `arrived` ghost log
(every `OrderedSubject.next` invocation, in invocation order) of the run.
In particular a second order-recording subscriber observes `[A, B]` when
the first subscriber synchronously re-submits `B` upon receiving `A`. -/
theorem orderedSubject_delivers_in_arrival_order {fuel : Nat} {vs : List T}
    {st st' : OState T}
    (hnodup : (st.subs.map Subscriber.id).Nodup)
    (hb : st.busyPushingNext = false)
    (hq : st.itemQueue = [])
    (hns : st.subjStopped = false)
    (h : submitAll fuel vs st = some st')
    {sid : Nat} {s s' : Subscriber T}
    (hfind : findSub sid st.subs = some s)
    (hfind' : findSub sid st'.subs = some s')
    (hlive' : s'.stopped = false) :
    s.stopped = false ∧
    s'.received = s.received ++ st'.arrived.drop st.arrived.length := by
  obtain ⟨E, harr, hd, hq', hb', hns', hfor⟩ := submitAll_spec hnodup hb hq hns h
  obtain ⟨b, hfb, hrb⟩ := forall₂_findSub (fun x y hxy => hxy.1) hfor hfind
  rw [hfind'] at hfb
  have hbs : s' = b := Option.some_inj.mp hfb
  subst hbs
  obtain ⟨hlive, hrecv⟩ := hrb.2.2.2.1 hlive'
  refine ⟨hlive, ?_⟩
  rw [hrecv, harr, List.drop_left]

/-- Witness for C1: in `c1Init` subscriber `1` re-submits `2` upon
receiving `1`; the recorder (`2`) ends with `[1, 2]`, the arrival order,
never `[2, 1]`. -/
theorem orderedSubject_delivers_in_arrival_order_witness :
    ((c1Init.subs.map Subscriber.id).Nodup ∧
      c1Init.busyPushingNext = false ∧
      c1Init.itemQueue = [] ∧
      c1Init.subjStopped = false ∧
      submitAll 30 [1] c1Init = some c1Final ∧
      findSub 2 c1Init.subs = some (mkSubscriber 2 reactNone) ∧
      findSub 2 c1Final.subs = some c1Rec ∧
      c1Rec.stopped = false) ∧
    ((mkSubscriber 2 reactNone).stopped = false ∧
      c1Rec.received = (mkSubscriber 2 reactNone).received ++
        (c1Final.arrived.drop c1Init.arrived.length)) ∧
    c1Rec.received = [1, 2] := by
  have h1 : (c1Init.subs.map Subscriber.id).Nodup := by decide
  have h2 : c1Init.busyPushingNext = false := rfl
  have h3 : c1Init.itemQueue = [] := rfl
  have h4 : c1Init.subjStopped = false := rfl
  have h5 : submitAll 30 [1] c1Init = some c1Final := rfl
  have h6 : findSub 2 c1Init.subs = some (mkSubscriber 2 reactNone) := rfl
  have h7 : findSub 2 c1Final.subs = some c1Rec := rfl
  have h8 : c1Rec.stopped = false := rfl
  exact ⟨⟨h1, h2, h3, h4, h5, h6, h7, h8⟩,
    orderedSubject_delivers_in_arrival_order h1 h2 h3 h4 h5 h6 h7 h8, rfl⟩

/-- C2: when a subscriber callback throws during a delivery pass, delivery
still reaches the remaining subscribers of that pass; the pending
queue/busy flag return to quiescent; every subscriber live at the end of
the pass received the full arrival sequence (in particular every value
queued at the time of the throw, in order); and a later `next` from the
resulting state again delivers normally. -/
theorem throwing_subscriber_does_not_block_delivery {fuel : Nat} {v : T} {st st' : OState T}
    (hnodup : (st.subs.map Subscriber.id).Nodup)
    (hb : st.busyPushingNext = false)
    (hq : st.itemQueue = [])
    (hns : st.subjStopped = false)
    (_hthrow : ∃ s, s ∈ st.subs ∧ s.stopped = false ∧ Cmd.throwE ∈ s.react v)
    (h : next fuel v st = some st') :
    st'.itemQueue = [] ∧
    st'.busyPushingNext = false ∧
    (∀ sid s s', findSub sid st.subs = some s → findSub sid st'.subs = some s' →
      s'.stopped = false →
      s'.received = s.received ++ st'.arrived.drop st.arrived.length) ∧
    (∀ (g : Nat) (w : T) (st'' : OState T), next g w st' = some st'' →
      ∀ sid s1 s2, findSub sid st'.subs = some s1 → findSub sid st''.subs = some s2 →
        s2.stopped = false →
        s2.received = s1.received ++ st''.arrived.drop st'.arrived.length) := by
  obtain ⟨E, harr, hd, hq', hb', hns', hfor⟩ := next_spec hnodup hb hq hns h
  have hids : st'.subs.map Subscriber.id = st.subs.map Subscriber.id :=
    forall₂_map_id (fun x y hxy => hxy.1) hfor
  refine ⟨hq', hb', ?_, ?_⟩
  · intro sid s s' hfind hfind' hlive'
    obtain ⟨b, hfb, hrb⟩ := forall₂_findSub (fun x y hxy => hxy.1) hfor hfind
    rw [hfind'] at hfb
    have hbs : s' = b := Option.some_inj.mp hfb
    subst hbs
    obtain ⟨_, hrecv⟩ := hrb.2.2.2.1 hlive'
    rw [hrecv, harr, List.drop_left]
  · intro g w st'' h2 sid s1 s2 hf1 hf2 hlive2
    obtain ⟨E2, harr2, hd2, hq2, hb2, hns2, hfor2⟩ :=
      next_spec (by rw [hids]; exact hnodup) hb' hq' hns' h2
    obtain ⟨b, hfb, hrb⟩ := forall₂_findSub (fun x y hxy => hxy.1) hfor2 hf1
    rw [hf2] at hfb
    have hbs : s2 = b := Option.some_inj.mp hfb
    subst hbs
    obtain ⟨_, hrecv⟩ := hrb.2.2.2.1 hlive2
    rw [hrecv, harr2, List.drop_left]

/-- Witness for C2: in `c2Init` subscriber `1` queues `2` and then throws
while receiving `1`; the recorder still receives `[1, 2]` — the queued
value is delivered in order after the throw. -/
theorem throwing_subscriber_does_not_block_delivery_witness :
    ((c2Init.subs.map Subscriber.id).Nodup ∧
      c2Init.busyPushingNext = false ∧
      c2Init.itemQueue = [] ∧
      c2Init.subjStopped = false ∧
      (∃ s, s ∈ c2Init.subs ∧ s.stopped = false ∧ Cmd.throwE ∈ s.react 1) ∧
      next 30 1 c2Init = some c2Final) ∧
    (c2Final.itemQueue = [] ∧
      c2Final.busyPushingNext = false ∧
      (∀ sid s s', findSub sid c2Init.subs = some s → findSub sid c2Final.subs = some s' →
        s'.stopped = false →
        s'.received = s.received ++ c2Final.arrived.drop c2Init.arrived.length) ∧
      (∀ (g : Nat) (w : Nat) (st'' : OState Nat), next g w c2Final = some st'' →
        ∀ sid s1 s2, findSub sid c2Final.subs = some s1 → findSub sid st''.subs = some s2 →
          s2.stopped = false →
          s2.received = s1.received ++ st''.arrived.drop c2Final.arrived.length)) ∧
    c2Rec.received = [1, 2] := by
  have h1 : (c2Init.subs.map Subscriber.id).Nodup := by decide
  have h2 : c2Init.busyPushingNext = false := rfl
  have h3 : c2Init.itemQueue = [] := rfl
  have h4 : c2Init.subjStopped = false := rfl
  have h5 : ∃ s, s ∈ c2Init.subs ∧ s.stopped = false ∧ Cmd.throwE ∈ s.react 1 :=
    ⟨mkSubscriber 1 (reactEmitThrow 1 2), List.mem_cons_self _ _, rfl, by decide⟩
  have h6 : next 30 1 c2Init = some c2Final := rfl
  exact ⟨⟨h1, h2, h3, h4, h5, h6⟩,
    throwing_subscriber_does_not_block_delivery h1 h2 h3 h4 h5 h6, rfl⟩

/-- C3: with `n ≥ 1` concurrent external subscribers attached to the
shared view, exactly one upstream subscription is ever established; after
all `n` detach the upstream subscription is released; a subsequent new
subscriber causes exactly one fresh establishment. -/
theorem actions_single_upstream_subscription {n : Nat} (hn : 1 ≤ n) :
    (shareAttach^[n] shareInit).establishments = 1 ∧
    (shareAttach^[n] shareInit).connected = true ∧
    (shareDetach^[n] (shareAttach^[n] shareInit)).refCount = 0 ∧
    (shareDetach^[n] (shareAttach^[n] shareInit)).connected = false ∧
    (shareAttach (shareDetach^[n] (shareAttach^[n] shareInit))).establishments = 2 ∧
    (shareAttach (shareDetach^[n] (shareAttach^[n] shareInit))).connected = true := by
  obtain ⟨k, rfl⟩ : ∃ k, n = k + 1 := ⟨n - 1, (Nat.succ_pred_eq_of_pos hn).symm⟩
  have h1 : shareAttach^[k + 1] shareInit =
      { refCount := k + 1, connected := true, establishments := 1 } := by
    have h0 := shareAttach_iter k false 0
    simpa [shareInit] using h0
  rw [h1, shareDetach_iter k 1]
  refine ⟨rfl, rfl, rfl, rfl, ?_, ?_⟩ <;> simp [shareAttach]

/-- Witness for C3 at `n = 2`: two subscribers share one establishment;
after both detach, a third causes exactly one more. -/
theorem actions_single_upstream_subscription_witness :
    1 ≤ 2 ∧
    ((shareAttach^[2] shareInit).establishments = 1 ∧
      (shareAttach^[2] shareInit).connected = true ∧
      (shareDetach^[2] (shareAttach^[2] shareInit)).refCount = 0 ∧
      (shareDetach^[2] (shareAttach^[2] shareInit)).connected = false ∧
      (shareAttach (shareDetach^[2] (shareAttach^[2] shareInit))).establishments = 2 ∧
      (shareAttach (shareDetach^[2] (shareAttach^[2] shareInit))).connected = true) :=
  ⟨by decide, actions_single_upstream_subscription (by decide)⟩

/-- C4: after the channel reached terminal completion, any further call
to `next` has no observable effect — no subscriber state changes and
nothing is broadcast (first conjunct), and the call returns normally for
a sufficient fuel budget, raising nothing to the caller (second
conjunct). -/
theorem post_terminal_submission_is_noop {v : T} {st : OState T}
    (hterm : st.subjStopped = true) :
    (∀ (f : Nat) (st' : OState T), next f v st = some st' →
      st'.subs = st.subs ∧ st'.delivered = st.delivered) ∧
    (∃ (g : Nat) (st'' : OState T), next g v st = some st'') := by
  constructor
  · intro f st' h
    unfold next at h
    by_cases hbusy : st.busyPushingNext = true
    · have hst' := callNext_busy hbusy h
      subst hst'
      exact ⟨rfl, rfl⟩
    · have hbusy' : st.busyPushingNext = false := by
        cases hcase : st.busyPushingNext
        · rfl
        · exact absurd hcase hbusy
      cases f with
      | zero => simp [run_zero_cons] at h
      | succ f =>
        rw [run_succ_cons] at h
        simp only [stepJob, logArrive_busy, hbusy', Bool.false_eq_true, if_false,
          List.append_nil] at h
        have h2 : run f ([Job.superNext v] ++ ([Job.drainLoop] ++ [Job.clearBusy]))
            (setBusy (logArrive v st)) = some st' := by simpa using h
        obtain ⟨st1, hA, hBC⟩ := run_split h2
        obtain ⟨st2, hB, hC⟩ := run_split hBC
        have hst1 := superNext_stopped (by simpa using hterm) hA
        subst hst1
        obtain ⟨hsubs, hdel, _, _, _⟩ := drain_stopped (by simpa using hterm) hB
        have hst' := clearBusy_run hC
        subst hst'
        constructor
        · show (setIdle st2).subs = st.subs
          rw [setIdle_subs, hsubs]
          simp
        · show (setIdle st2).delivered = st.delivered
          rw [setIdle_delivered, hdel]
          simp
  · by_cases hbusy : st.busyPushingNext = true
    · refine ⟨1, enqueue v (logArrive v st), ?_⟩
      unfold next
      rw [run_succ_cons]
      simp only [stepJob, logArrive_busy, hbusy, if_true, List.nil_append]
      exact run_nil 0 _
    · have hbusy' : st.busyPushingNext = false := by
        cases hcase : st.busyPushingNext
        · rfl
        · exact absurd hcase hbusy
      obtain ⟨stB, hdrain⟩ := drain_stopped_terminates st.itemQueue.length
        (setBusy (logArrive v st)) (by simpa using hterm) (by simp)
      have h1 : run 1 [Job.superNext v] (setBusy (logArrive v st)) =
          some (setBusy (logArrive v st)) := by
        rw [run_succ_cons]
        simp only [stepJob, setBusy_subjStopped, logArrive_subjStopped, hterm, if_true,
          List.nil_append]
        exact run_nil 0 _
      have h3 : run 1 [Job.clearBusy] stB = some (setIdle stB) := by
        rw [run_succ_cons]
        simp only [stepJob, List.nil_append]
        exact run_nil 0 _
      have h12 := run_append h1 hdrain
      have h123 := run_append h12 h3
      refine ⟨1 + (2 * st.itemQueue.length + 1) + 1 + 1, setIdle stB, ?_⟩
      unfold next
      rw [show 1 + (2 * st.itemQueue.length + 1) + 1 + 1 =
        (1 + (2 * st.itemQueue.length + 1) + 1) + 1 by ring, run_succ_cons]
      simp only [stepJob, logArrive_busy, hbusy', Bool.false_eq_true, if_false, List.append_nil]
      simpa using h123

/-- Witness for C4 on the completed `c1Init` channel: submitting `7`
afterwards changes no subscriber and broadcasts nothing, and terminates
normally. -/
theorem post_terminal_submission_is_noop_witness :
    (ngOnDestroy c1Init).subjStopped = true ∧
    ((∀ (f : Nat) (st' : OState Nat), next f 7 (ngOnDestroy c1Init) = some st' →
        st'.subs = (ngOnDestroy c1Init).subs ∧ st'.delivered = (ngOnDestroy c1Init).delivered) ∧
      (∃ (g : Nat) (st'' : OState Nat), next g 7 (ngOnDestroy c1Init) = some st'')) :=
  ⟨rfl, post_terminal_submission_is_noop rfl⟩

/-- C5: the terminal transition is idempotent — a second `ngOnDestroy`
(i.e. `complete()`) leaves the state fixed — and each subscriber that was
live when the first `complete()` ran has its `complete` handler invoked
exactly once, no matter how many times `complete()` is called. -/
theorem complete_idempotent_exactly_once {st : OState T} {sid : Nat} {s : Subscriber T}
    (hfind : findSub sid st.subs = some s) (hlive : s.stopped = false) :
    ngOnDestroy (ngOnDestroy st) = ngOnDestroy st ∧
    ∃ s', findSub sid (ngOnDestroy st).subs = some s' ∧
      s'.completedCount = s.completedCount + 1 ∧ s'.stopped = true ∧
      findSub sid (ngOnDestroy (ngOnDestroy st)).subs = some s' := by
  have hidem : complete (complete st) = complete st := complete_idem st
  have honce := complete_once hfind hlive
  refine ⟨hidem, { s with stopped := true, completedCount := s.completedCount + 1 },
    honce, rfl, rfl, ?_⟩
  show findSub sid (complete (complete st)).subs =
    some { s with stopped := true, completedCount := s.completedCount + 1 }
  rw [hidem]
  exact honce

/-- Witness for C5 on `c1Init`: after two `ngOnDestroy` calls both
subscribers have `completedCount = 1`. -/
theorem complete_idempotent_exactly_once_witness :
    (findSub 1 c1Init.subs = some (mkSubscriber 1 (reactEmitOn 1 2)) ∧
      (mkSubscriber 1 (reactEmitOn 1 2)).stopped = false) ∧
    (ngOnDestroy (ngOnDestroy c1Init) = ngOnDestroy c1Init ∧
      ∃ s', findSub 1 (ngOnDestroy c1Init).subs = some s' ∧
        s'.completedCount = (mkSubscriber 1 (reactEmitOn 1 2)).completedCount + 1 ∧
        s'.stopped = true ∧
        findSub 1 (ngOnDestroy (ngOnDestroy c1Init)).subs = some s') ∧
    (ngOnDestroy (ngOnDestroy c1Init)).subs.map Subscriber.completedCount = [1, 1] := by
  refine ⟨⟨rfl, rfl⟩, ?_, rfl⟩
  exact complete_idempotent_exactly_once rfl rfl

/-- C6: from any reachable configuration (any job stack, including one
captured mid-drain of the pending queue), once a subscriber is
deregistered it receives nothing further: at the end of any completed run
it is still deregistered and its received list is unchanged. -/
theorem no_delivery_after_deregistration {f : Nat} {js : List (Job T)} {st st' : OState T}
    (h : run f js st = some st') {sid : Nat} {t : Subscriber T}
    (hfind : findSub sid st.subs = some t) (hstop : t.stopped = true) :
    ∃ t', findSub sid st'.subs = some t' ∧ t'.stopped = true ∧ t'.received = t.received :=
  run_stopped_frozen h hfind hstop

/-- Witness for C6: in `c6Init` subscriber `1` disposed itself after
receiving `1`; submitting `2` afterwards leaves its received list at
`[1]` while the live recorder receives `2`. -/
theorem no_delivery_after_deregistration_witness :
    (run 30 [Job.callNext 2] c6Init = some c6Final ∧
      findSub 1 c6Init.subs =
        some { mkSubscriber 1 reactNone with stopped := true, received := [1] } ∧
      ({ mkSubscriber 1 reactNone with stopped := true, received := [1] } :
        Subscriber Nat).stopped = true) ∧
    (∃ t', findSub 1 c6Final.subs = some t' ∧ t'.stopped = true ∧
      t'.received = ({ mkSubscriber 1 reactNone with stopped := true, received := [1] } :
        Subscriber Nat).received) ∧
    (findSub 2 c6Final.subs).map Subscriber.received = some [2] := by
  have h1 : run 30 [Job.callNext 2] c6Init = some c6Final := rfl
  have h2 : findSub 1 c6Init.subs =
      some { mkSubscriber 1 reactNone with stopped := true, received := [1] } := rfl
  have h3 : ({ mkSubscriber 1 reactNone with stopped := true, received := [1] } :
      Subscriber Nat).stopped = true := rfl
  exact ⟨⟨h1, h2, h3⟩, no_delivery_after_deregistration h1 h2 h3, rfl⟩

/-- C7: a subscriber attached after a value `a` was fully delivered never
receives `a` (as long as `a` is not re-submitted), and receives exactly
the values submitted after its subscription, starting with the next
submission `b`. -/
theorem late_subscriber_isolation {f g : Nat} {a b : T} {st st1 st2 : OState T}
    (hnodup : (st.subs.map Subscriber.id).Nodup)
    (hb : st.busyPushingNext = false)
    (hq : st.itemQueue = [])
    (hns : st.subjStopped = false)
    (hA : next f a st = some st1)
    {nid : Nat} {r : T → List (Cmd T)}
    (hfresh : findSub nid st1.subs = none)
    (hB : next g b (subscribeSub (mkSubscriber nid r) st1) = some st2)
    {s' : Subscriber T}
    (hfind' : findSub nid st2.subs = some s')
    (hlive' : s'.stopped = false) :
    s'.received = b :: st2.arrived.drop (st1.arrived.length + 1) ∧
    (a ∉ st2.arrived.drop st1.arrived.length → a ∉ s'.received) := by
  obtain ⟨E1, harr1, hd1, hq1, hb1, hns1, hfor1⟩ := next_spec hnodup hb hq hns hA
  have hids1 : st1.subs.map Subscriber.id = st.subs.map Subscriber.id :=
    forall₂_map_id (fun x y hxy => hxy.1) hfor1
  have hnid : nid ∉ st1.subs.map Subscriber.id := by
    intro hmem
    obtain ⟨u, hu, hueq⟩ := List.mem_map.mp hmem
    exact (findSub_eq_none.mp hfresh u hu) hueq
  have hnodup1 : (st1.subs.map Subscriber.id).Nodup := by
    rw [hids1]
    exact hnodup
  have hnodup2 : ((subscribeSub (mkSubscriber nid r) st1).subs.map Subscriber.id).Nodup := by
    show ((st1.subs ++ [mkSubscriber nid r]).map Subscriber.id).Nodup
    rw [List.map_append]
    rw [List.nodup_append]
    refine ⟨hnodup1, by simp, ?_⟩
    intro x hx
    simp only [List.map_cons, List.map_nil, List.mem_singleton, mkSubscriber]
    intro hc
    rw [hc] at hx
    exact hnid hx
  obtain ⟨E2, harr2, hd2, hq2, hb2, hns2, hfor2⟩ :=
    next_spec hnodup2 (by simpa [subscribeSub] using hb1)
      (by simpa [subscribeSub] using hq1) (by simpa [subscribeSub] using hns1) hB
  have hfindAtt : findSub nid (subscribeSub (mkSubscriber nid r) st1).subs =
      some (mkSubscriber nid r) := by
    show findSub nid (st1.subs ++ [mkSubscriber nid r]) = some (mkSubscriber nid r)
    rw [findSub_append_right hfresh]
    simp [findSub, mkSubscriber]
  obtain ⟨b2, hfb2, hrb2⟩ := forall₂_findSub (fun x y hxy => hxy.1) hfor2 hfindAtt
  rw [hfind'] at hfb2
  have hbs : s' = b2 := Option.some_inj.mp hfb2
  subst hbs
  obtain ⟨_, hrecv⟩ := hrb2.2.2.2.1 hlive'
  have hattArr : (subscribeSub (mkSubscriber nid r) st1).arrived = st1.arrived := rfl
  rw [hattArr] at harr2
  have hdropE : st2.arrived.drop (st1.arrived.length + 1) = E2 := by
    rw [harr2, drop_append_cons]
  have hdropb : st2.arrived.drop st1.arrived.length = b :: E2 := by
    rw [harr2, List.drop_left]
  constructor
  · rw [hrecv, hdropE]
    simp [mkSubscriber]
  · intro hna
    rw [hdropb] at hna
    rw [hrecv]
    simpa [mkSubscriber] using hna

/-- Witness for C7: a subscriber (id `5`) attached after `1` was fully
delivered on `c7Init` receives exactly `[2]` — the later submission —
and not `1`. -/
theorem late_subscriber_isolation_witness :
    ((c7Init.subs.map Subscriber.id).Nodup ∧
      c7Init.busyPushingNext = false ∧
      c7Init.itemQueue = [] ∧
      c7Init.subjStopped = false ∧
      next 30 1 c7Init = some c7Mid ∧
      findSub 5 c7Mid.subs = none ∧
      next 30 2 (subscribeSub (mkSubscriber 5 reactNone) c7Mid) = some c7Final ∧
      findSub 5 c7Final.subs = some c7New ∧
      c7New.stopped = false) ∧
    (c7New.received = 2 :: c7Final.arrived.drop (c7Mid.arrived.length + 1) ∧
      ((1 : Nat) ∉ c7Final.arrived.drop c7Mid.arrived.length → (1 : Nat) ∉ c7New.received)) ∧
    c7New.received = [2] := by
  have h1 : (c7Init.subs.map Subscriber.id).Nodup := by decide
  have h2 : c7Init.busyPushingNext = false := rfl
  have h3 : c7Init.itemQueue = [] := rfl
  have h4 : c7Init.subjStopped = false := rfl
  have h5 : next 30 1 c7Init = some c7Mid := rfl
  have h6 : findSub 5 c7Mid.subs = none := rfl
  have h7 : next 30 2 (subscribeSub (mkSubscriber 5 reactNone) c7Mid) = some c7Final := rfl
  have h8 : findSub 5 c7Final.subs = some c7New := rfl
  have h9 : c7New.stopped = false := rfl
  exact ⟨⟨h1, h2, h3, h4, h5, h6, h7, h8, h9⟩,
    late_subscriber_isolation h1 h2 h3 h4 h5 h6 h7 h8 h9, rfl⟩

/-- C8: the sequence of notifications an observer of `Actions` receives
is identical to the sequence emitted by the underlying ordered broadcast
channel — the `leaveNgxs` transform, the `share()` multicast and the
forwarding subscriber neither reorder, drop nor duplicate events. -/
theorem actions_preserves_channel_sequence {A B : Type} (up : List (Evt A B)) (st : OState A) :
    actionsObserved up = up ∧
    actionsObserved (st.delivered.map (fun v => (Evt.next v : Evt A B))) =
      st.delivered.map (fun v => (Evt.next v : Evt A B)) := by
  have hmap : ∀ l : List (Evt A B), l.map actionsForward = l := by
    intro l
    induction l with
    | nil => rfl
    | cons e rest ih =>
      have hfwd : actionsForward e = e := by cases e <;> rfl
      simp only [List.map_cons, hfwd, ih]
  exact ⟨hmap up, hmap _⟩

/-- C9: whenever an outermost `OrderedSubject.next` call, started from
the quiescent state, returns, the channel is quiescent again: the
pending queue is empty and the busy flag is cleared. -/
theorem next_restores_quiescence {f : Nat} {v : T} {st st' : OState T}
    (hnodup : (st.subs.map Subscriber.id).Nodup)
    (hb : st.busyPushingNext = false)
    (hq : st.itemQueue = [])
    (h : next f v st = some st') :
    st'.itemQueue = [] ∧ st'.busyPushingNext = false := by
  cases hns : st.subjStopped with
  | false =>
    obtain ⟨E, _, _, hq', hb', _, _⟩ := next_spec hnodup hb hq hns h
    exact ⟨hq', hb'⟩
  | true =>
    unfold next at h
    cases f with
    | zero => simp [run_zero_cons] at h
    | succ f =>
      rw [run_succ_cons] at h
      simp only [stepJob, logArrive_busy, hb, Bool.false_eq_true, if_false,
        List.append_nil] at h
      have h2 : run f ([Job.superNext v] ++ ([Job.drainLoop] ++ [Job.clearBusy]))
          (setBusy (logArrive v st)) = some st' := by simpa using h
      obtain ⟨st1, hA, hBC⟩ := run_split h2
      obtain ⟨st2, hB, hC⟩ := run_split hBC
      have hst1 := superNext_stopped (by simpa using hns) hA
      subst hst1
      have hst2 := drain_nil (by simpa using hq) hB
      subst hst2
      have hst' := clearBusy_run hC
      subst hst'
      exact ⟨by simpa using hq, rfl⟩

/-- Witness for C9 on `c1Init`: after the reentrant run triggered by
submitting `1`, the queue is empty and the busy flag is down. -/
theorem next_restores_quiescence_witness :
    ((c1Init.subs.map Subscriber.id).Nodup ∧
      c1Init.busyPushingNext = false ∧
      c1Init.itemQueue = [] ∧
      next 30 1 c1Init = some ((next 30 1 c1Init).getD c1Init)) ∧
    (((next 30 1 c1Init).getD c1Init).itemQueue = [] ∧
      ((next 30 1 c1Init).getD c1Init).busyPushingNext = false) := by
  have h1 : (c1Init.subs.map Subscriber.id).Nodup := by decide
  have h2 : c1Init.busyPushingNext = false := rfl
  have h3 : c1Init.itemQueue = [] := rfl
  have h4 : next 30 1 c1Init = some ((next 30 1 c1Init).getD c1Init) := rfl
  exact ⟨⟨h1, h2, h3, h4⟩, next_restores_quiescence h1 h2 h3 h4⟩

/-- C10: disposing the subscription handle returned by `Actions` closes
the child subscription into the shared stream, after which no further
event is forwarded to that observer; disposal is idempotent and releases
this observer's share of the upstream reference count. -/
theorem dispose_detaches_and_silences {A B : Type} (c : ActionsConn A B) (e : Evt A B) :
    (actionsDispose c).childClosed = true ∧
    actionsDeliver e (actionsDispose c) = actionsDispose c ∧
    actionsDispose (actionsDispose c) = actionsDispose c ∧
    (c.childClosed = false → (actionsDispose c).share.refCount = c.share.refCount - 1) := by
  by_cases h : c.childClosed = true
  · simp [actionsDispose, actionsDeliver, h]
  · have h' : c.childClosed = false := by
      cases hc : c.childClosed
      · rfl
      · exact absurd hc h
    refine ⟨?_, ?_, ?_, fun _ => ?_⟩
    · simp [actionsDispose, h']
    · simp [actionsDispose, actionsDeliver, h']
    · simp [actionsDispose, h']
    · simp only [actionsDispose, h', Bool.false_eq_true, if_false, shareDetach]
      split <;> rfl

/-- Witness for C10 on a live connection holding the last reference:
disposal closes the child, silences delivery and drops the reference
count to zero. -/
theorem dispose_detaches_and_silences_witness :
    c10Conn.childClosed = false ∧
    ((actionsDispose c10Conn).childClosed = true ∧
      actionsDeliver (Evt.next 0) (actionsDispose c10Conn) = actionsDispose c10Conn ∧
      actionsDispose (actionsDispose c10Conn) = actionsDispose c10Conn ∧
      (c10Conn.childClosed = false →
        (actionsDispose c10Conn).share.refCount = c10Conn.share.refCount - 1)) ∧
    (actionsDispose c10Conn).share.refCount = 0 :=
  ⟨rfl, dispose_detaches_and_silences c10Conn (Evt.next 0), rfl⟩

end ActionsStream
